import Mathlib

/-!
Verification development for the storage-access subsystem of `cloud-volume`
(`src/cloudvolume/storage.py`).

The shallow embedding below translates the storage backends into pure Lean
functions:

* file contents are byte lists (`Bytes := List Nat`);
* the local filesystem backend's state is a partial map from paths to
  contents (`FS := String → Option Bytes`);
* fallible Python code (code that can raise) returns `Except`;
* the external compression codec (`cloudvolume/compression.py`, not part of
  the storage core) is modelled from the spec as a pure header-framing
  codec satisfying `decompress (compress b) = b`;
* Python's unbounded loops and recursions are embedded with an explicit
  fuel argument, instantiated by the wrapper definitions with a provably
  sufficient amount.

Layer paths: the interfaces join `bucket`/`path`/`file_path` to form the key
they operate on.  Throughout we model the layer root as the empty string, so
that keys coincide with the relative paths the callers use; this specializes
`get_path_to_file` to the identity and `str.replace(layer_path, '')` to the
identity (Python's `replace` with an empty pattern returns the string
unchanged).
-/

set_option maxRecDepth 10000

/-- Byte strings are modelled as lists of natural numbers (byte values). -/
def Bytes : Type := List Nat

deriving instance DecidableEq for Bytes

/-- The filesystem backend's state: a partial map from paths to contents. -/
def FS : Type := String → Option Bytes

/-- Write one path (Python `open(path, 'wb'); f.write(content)`). -/
def fsWrite (st : FS) (p : String) (v : Bytes) : FS :=
  fun q => if q = p then some v else st q

/-- Remove one path (Python `os.remove(path)`). -/
def fsRemove (st : FS) (p : String) : FS :=
  fun q => if q = p then none else st q

/-- Errors raised by the modelled storage code. -/
inductive StorageErr : Type
  | decompressError
  | notImplementedError
  | httpNotFound
  | httpForbidden
  | httpClientError
  | httpServerError
  | outOfFuel
deriving DecidableEq, Repr

/-- Modelled from the spec: the byte-level compression codec
(`compression.compress`, external to the storage core) is a pure function
`compress(bytes, method) -> bytes`.  We model gzip framing as a
header-prefix injection so that compression is non-trivial and invertible. -/
def gzipCompress (b : Bytes) : Bytes :=
  (31 : Nat) :: 139 :: 8 :: b

/-- Modelled from the spec: `compression.compress(content, method)` with
`method` either `None` (identity) or gzip. -/
def compressMethod (method : Bool) (b : Bytes) : Bytes :=
  if method then gzipCompress b else b

/-- Modelled from the spec: the codec's `decompress(bytes, encoding)`,
transparent for a null/empty encoding, gzip-decoding for `'gzip'`; raises
on content that is not in gzip format. -/
def gzipDecompress (encodingGzip : Bool) (b : Bytes) : Except StorageErr Bytes :=
  if encodingGzip then
    match b with
    | 31 :: 139 :: 8 :: rest => .ok rest
    | _ => .error .decompressError
  else
    .ok b

namespace FileInterface

/-- `FileInterface.put_file` (storage.py:428): appends `.gz` when the write
is compressed, then creates/truncates the file with the given (already
compressed) content.  The `str`-to-`utf-8` conversion branch is a no-op in
the byte model, and the `except IOError` re-write writes the same bytes. -/
def put_file (st : FS) (file_path : String) (content : Bytes) (compress : Bool) : FS :=
  let path := if compress then file_path ++ ".gz" else file_path
  fsWrite st path content

/-- `FileInterface.get_file` (storage.py:449): prefers the `.gz` sibling,
reads it and decompresses transparently; a missing file (`IOError` on
`open`) yields `None`.  Decompression errors propagate. -/
def get_file (st : FS) (file_path : String) : Except StorageErr (Option Bytes) :=
  let compressed := (st (file_path ++ ".gz")).isSome
  let path := if compressed then file_path ++ ".gz" else file_path
  match st path with
  | none => .ok none
  | some data => (gzipDecompress compressed data).map some

/-- `FileInterface.exists` (storage.py:487): true when the path or its
`.gz` sibling is present. -/
def exists_file (st : FS) (file_path : String) : Bool :=
  (st file_path).isSome || (st (file_path ++ ".gz")).isSome

/-- `FileInterface.files_exist` (storage.py:491). -/
def files_exist (st : FS) (file_paths : List String) : List (String × Bool) :=
  file_paths.map (fun p => (p, exists_file st p))

/-- `FileInterface.delete_file` (storage.py:494): removes the uncompressed
variant when present, otherwise the `.gz` variant when present. -/
def delete_file (st : FS) (file_path : String) : FS :=
  if (st file_path).isSome then fsRemove st file_path
  else if (st (file_path ++ ".gz")).isSome then fsRemove st (file_path ++ ".gz")
  else st

end FileInterface

/-- The `Storage` facade's write path (storage.py:275 `put_files` body for a
single file): the facade first applies `compression.compress(content,
method)` and hands the compressed bytes to the interface. -/
def storagePutFile (st : FS) (file_path : String) (content : Bytes) (compress : Bool) : FS :=
  FileInterface.put_file st file_path (compressMethod compress content) compress

/-- Character code at position `i` of a string (`ord(s[i])` in Python),
`none` when `i >= len(s)`. -/
def charCodeAt (s : String) (i : Nat) : Option Nat :=
  (s.data.get? i).map Char.toNat

/-- `_radix_sort` (storage.py:981), most significant character radix sort,
embedded with an explicit fuel argument for the recursion on `i`.  As in the
source, strings shorter than the current position go to `done_bucket` and
the remaining strings are distributed over 255 buckets indexed by
`ord(s[i])` (the source allocates exactly `range(255)` buckets, so a
character code of 255 or more falls outside every bucket; our theorems
restrict to codes below 255, where the embedding and the source agree). -/
def radixSortAux : Nat → List String → Nat → List String
  | 0, L, _ => L
  | fuel + 1, L, i =>
    if L.length ≤ 1 then L
    else
      let done_bucket := L.filter (fun s => decide (s.data.length ≤ i))
      let buckets := (List.range 255).map
        (fun c => radixSortAux fuel (L.filter (fun s => charCodeAt s i = some c)) (i + 1))
      done_bucket ++ buckets.flatten

/-- The maximal length of a string in the list. -/
def maxStrLen (L : List String) : Nat :=
  (L.map (fun s => s.data.length)).foldr max 0

/-- `_radix_sort(L)` with the top-level call `i = 0`; the fuel
`maxStrLen L + 1` covers every level the source recursion can reach. -/
def radix_sort (L : List String) : List String :=
  radixSortAux (maxStrLen L + 1) L 0

/-- Lexicographic (most-significant-character-first) comparison of strings
by character code, i.e. Python's `<=` on `str`. -/
def lexLe : List Char → List Char → Bool
  | [], _ => true
  | _ :: _, [] => false
  | a :: as, b :: bs =>
    a.toNat < b.toNat || (a.toNat = b.toNat && lexLe as bs)

/-- A list of strings is sorted when consecutive elements are in
nondecreasing lexicographic order. -/
def SortedLex (L : List String) : Prop :=
  L.Pairwise (fun s t => lexLe s.data t.data = true)

/-- Character-list prefix test (Python `str.startswith` /
`f[:len(prefix)] == prefix`), structurally recursive so that it evaluates
inside the kernel. -/
def chPrefix : List Char → List Char → Bool
  | [], _ => true
  | _ :: _, [] => false
  | a :: as, b :: bs => a = b && chPrefix as bs

/-- One string is a prefix of another (by character). -/
def strPrefix (pre s : String) : Bool :=
  chPrefix pre.data s.data

/-- Character membership (Python `'/' in s`). -/
def chContains : List Char → Char → Bool
  | [], _ => false
  | a :: as, c => a = c || chContains as c

/-- Model of the Python `glob(path + '*')` match in the `flat=True` branch
of `FileInterface.list_files`: with the layer root `""` the pattern is
`prefix + '*'`, and `'*'` matches any run of characters without a path
separator; the `os.path.isfile` check discards directories, so a relative
file path matches exactly when it extends the prefix without entering a
subdirectory. -/
def globFlatMatch (pre : String) (f : String) : Bool :=
  strPrefix pre f && !(chContains (f.data.drop pre.data.length) '/')

/-- Python `os.path.splitext` + `.gz` strip (storage.py:535 `stripgz`):
strips a final `.gz` extension.  `splitext` only recognizes an extension
when the final path component (the part after the last `/`) has a non-dot
character before the last dot, so a basename of leading dots such as `.gz`
keeps its name. -/
def stripgz (fname : String) : String :=
  match fname.data.reverse with
  | z :: g :: d :: rest =>
    if z = 'z' ∧ g = 'g' ∧ d = '.'
        ∧ (rest.takeWhile (fun c => c ≠ '/')).any (fun c => c ≠ '.') then
      ⟨rest.reverse⟩
    else fname
  | _ => fname

/-- `FileInterface.list_files` (storage.py:501) with the layer root
modelled as `""`, over a filesystem state given as the list of the relative
paths of the files on disk (the enumeration order of `glob`/`os.walk`).
The `flat` branch globs one level and keeps only files (storage.py:519);
the recursive branch walks the tree and keeps the paths extending the
prefix (storage.py:526).  Both branches then strip `.gz` suffixes and
radix-sort (storage.py:542). -/
def FileInterface.list_files (files : List String) (pre : String) (flat : Bool) :
    List String :=
  let filenames :=
    if flat then files.filter (globFlatMatch pre)
    else files.filter (fun f => strPrefix pre f)
  radix_sort (filenames.map stripgz)

/-- Python `str.replace(pattern, '')` — removes every (non-overlapping,
leftmost-first) occurrence of `pattern`; an empty pattern leaves the string
unchanged when the replacement is empty.  Fuel-based so that it evaluates
in the kernel; `fuel = s.length` always suffices since every step consumes
at least one character. -/
def chRemoveAll : Nat → List Char → List Char → List Char
  | 0, s, _ => s
  | _ + 1, [], _ => []
  | fuel + 1, c :: rest, pat =>
    if pat ≠ [] ∧ chPrefix pat (c :: rest) = true then
      chRemoveAll fuel ((c :: rest).drop pat.length) pat
    else
      c :: chRemoveAll fuel rest pat

/-- `s.replace(pat, '')` on strings. -/
def strRemoveAll (s pat : String) : String :=
  ⟨chRemoveAll s.data.length s.data pat.data⟩

/-- `S3Interface.list_files` (storage.py:934) with the layer root modelled
as `""` (so `path = prefix` and the `replace(layer_path, '')` that computes
`filename` is the identity).  The backend's paginated enumeration is given
as a list of pages of object keys (`resp['Contents']` per request); the
code filters each page — recursive mode keeps names not ending in `/`,
flat mode keeps keys in which removing every occurrence of the prefix
leaves no `/` — and yields in backend order, without any sorting of its
own. -/
def S3Interface.list_files (pages : List (List String)) (pre : String) (flat : Bool) :
    List String :=
  pages.flatten.filterMap (fun key =>
    if !flat && (key.data.getLast? ≠ some '/') then some key
    else if flat && !(chContains (strRemoveAll key pre).data '/') then some key
    else none)

/-- `GoogleCloudStorageInterface.list_files` (storage.py:635) with the
layer root modelled as `""`: identical per-item filtering over the
backend's single blob enumeration, again without any sorting. -/
def GoogleCloudStorageInterface.list_files (blobs : List String) (pre : String)
    (flat : Bool) : List String :=
  blobs.filterMap (fun name =>
    if !flat && (name.data.getLast? ≠ some '/') then some name
    else if flat && !(chContains (strRemoveAll name pre).data '/') then some name
    else none)

/-- The S3 backend's bucket state: a partial map from object keys to
(content, gzip-content-encoding flag) pairs, the metadata the source reads
back from `get_object`. -/
def S3State : Type := String → Option (Bytes × Bool)

/-- `S3Interface.get_file` (storage.py:860): a missing key raises
`NoSuchKey`, which the source catches and turns into `None`; otherwise the
content is read and decompressed according to its `ContentEncoding`. -/
def S3Interface.get_file (st : S3State) (file_path : String) :
    Except StorageErr (Option Bytes) :=
  match st file_path with
  | none => .ok none
  | some (content, enc) => (gzipDecompress enc content).map some

/-- `S3Interface.exists` (storage.py:909): `head_object` answers 404 for a
missing key, which the source converts to `False`. -/
def S3Interface.exists_file (st : S3State) (file_path : String) : Bool :=
  (st file_path).isSome

/-- `S3Interface.files_exist` (storage.py:924): a dict comprehension of
per-path `exists`. -/
def S3Interface.files_exist (st : S3State) (file_paths : List String) :
    List (String × Bool) :=
  file_paths.map (fun p => (p, S3Interface.exists_file st p))

/-- One entry of a batched read: `{'filename': .., 'content': ..,
'error': ..}` (the `FileResult` of the spec). -/
structure FileResult : Type where
  filename : String
  content : Option Bytes
  error : Option StorageErr
deriving DecidableEq

/-- The per-item body of `FileInterface.get_files` (storage.py:465): call
`get_file`, catching any raised exception into the `error` field (the
source also prints it at the point of capture). -/
def FileInterface.get_file_result (st : FS) (path : String) : FileResult :=
  match FileInterface.get_file st path with
  | .ok content => ⟨path, content, none⟩
  | .error err => ⟨path, none, some err⟩

/-- `FileInterface.get_files` (storage.py:465): sequential per-item loop,
one `FileResult` per input path, in order. -/
def FileInterface.get_files (st : FS) (file_paths : List String) : List FileResult :=
  file_paths.map (FileInterface.get_file_result st)

/-- The per-item body of `S3Interface.get_files` (storage.py:887). -/
def S3Interface.get_file_result (st : S3State) (path : String) : FileResult :=
  match S3Interface.get_file st path with
  | .ok content => ⟨path, content, none⟩
  | .error err => ⟨path, none, some err⟩

/-- `S3Interface.get_files` (storage.py:887): sequential per-item loop
with per-item exception capture, like the file backend. -/
def S3Interface.get_files (st : S3State) (file_paths : List String) : List FileResult :=
  file_paths.map (S3Interface.get_file_result st)

/-- `MAX_RETRIES` (storage.py:46). -/
def MAX_RETRIES : Nat := 7

/-- The `tenacity.retry` wrapper built at storage.py:47: `reraise=True`,
`stop=stop_after_attempt(MAX_RETRIES)`, exponential backoff with jitter
(timing is immaterial to the result model).  `attempts n` is the outcome
of the `n`-th execution of the wrapped body (attempts are numbered from
1); `transient` is the retry predicate (`retry_if_exception_type(...)`;
the undecorated default retries every exception).  After an attempt fails,
the wrapper retries only when the error matches the predicate and the
attempt budget is not exhausted; otherwise it re-raises that error. -/
def tenacityGo {E A : Type} (transient : E → Bool) (attempts : Nat → Except E A) :
    Nat → Nat → Except E A
  | 0, n => attempts n
  | fuel + 1, n =>
    match attempts n with
    | .ok a => .ok a
    | .error e =>
      if transient e && decide (1 ≤ fuel) then tenacityGo transient attempts fuel (n + 1)
      else .error e

/-- A `@retry`-decorated call: up to `MAX_RETRIES` attempts. -/
def tenacityCall {E A : Type} (transient : E → Bool) (attempts : Nat → Except E A) :
    Except E A :=
  tenacityGo transient attempts MAX_RETRIES 1

/-- The HTTP/2 connection model for `HttpInterface`: a deterministic
response per request key (`status`, and a `body` for successful GETs), and
the transport's concurrent-stream limit (`hyper` raises
`TooManyStreamsError` when a request would exceed it). -/
structure HttpConn : Type where
  status : String → Nat
  body : String → Bytes
  maxStreams : Nat

/-- Modelled from the spec: the `exceptions.from_http_status`
classification (module `cloudvolume/exceptions.py`, outside the storage
source): 404 is not-found, 403 is forbidden (both client-class), other
4xx are client errors, 5xx are server errors (the transient class), and
anything else is a success. -/
inductive HttpStatusClass : Type
  | success
  | notFound
  | forbidden
  | clientError
  | serverError
deriving DecidableEq, Repr

/-- Modelled from the spec: status-code classification. -/
def classifyStatus (s : Nat) : HttpStatusClass :=
  if s = 404 then .notFound
  else if s = 403 then .forbidden
  else if 400 ≤ s && s < 500 then .clientError
  else if 500 ≤ s && s < 600 then .serverError
  else .success

/-- The `StorageErr` raised for an error-class response (not-found and
forbidden are subclasses of the client error class in the source's
exception hierarchy). -/
def statusErr : HttpStatusClass → Option StorageErr
  | .success => none
  | .notFound => some .httpNotFound
  | .forbidden => some .httpForbidden
  | .clientError => some .httpClientError
  | .serverError => some .httpServerError

/-- Whether a raised error is in the transient (`HTTPServerError`) class
that `retry_if_exception_type(exceptions.HTTPServerError)` retries. -/
def isServerErr : StorageErr → Bool
  | .httpServerError => true
  | _ => false

/-- One un-retried execution of `HttpInterface.get_file`'s body
(storage.py:677): GET the key and raise on any server- or client-class
response (not-found included — the body checks
`isinstance(err, (HTTPServerError, HTTPClientError))`). -/
def HttpInterface.get_file_once (conn : HttpConn) (file_path : String) :
    Except StorageErr Bytes :=
  match statusErr (classifyStatus (conn.status file_path)) with
  | some e => .error e
  | none => .ok (conn.body file_path)

/-- `HttpInterface.get_file` (storage.py:676): the body wrapped in
`@retry(retry=retry_if_exception_type(exceptions.HTTPServerError))`. -/
def HttpInterface.get_file (conn : HttpConn) (file_path : String) :
    Except StorageErr Bytes :=
  tenacityCall isServerErr (fun _ => HttpInterface.get_file_once conn file_path)

/-- One un-retried execution of `HttpInterface.exists`'s body
(storage.py:759): HEAD the key; not-found and forbidden resolve to
`False`, other error classes raise. -/
def HttpInterface.exists_once (conn : HttpConn) (file_path : String) :
    Except StorageErr Bool :=
  match classifyStatus (conn.status file_path) with
  | .notFound => .ok false
  | .forbidden => .ok false
  | .clientError => .error .httpClientError
  | .serverError => .error .httpServerError
  | .success => .ok true

/-- `HttpInterface.exists` (storage.py:758), retried on server errors. -/
def HttpInterface.exists_file (conn : HttpConn) (file_path : String) :
    Except StorageErr Bool :=
  tenacityCall isServerErr (fun _ => HttpInterface.exists_once conn file_path)

/-- `HttpInterface.put_file` (storage.py:673): unsupported on the
read-only HTTP backend; raises `NotImplementedError` unconditionally
(the `@retry` decorator is commented out, so no retry is involved). -/
def HttpInterface.put_file (file_path : String) (content : Bytes)
    (content_type : Option String) (compress : Bool) (cache_control : Option String) :
    Except StorageErr Unit :=
  .error .notImplementedError

/-- `HttpInterface.delete_file` (storage.py:669): unsupported, raises
unconditionally, never retried. -/
def HttpInterface.delete_file (file_path : String) : Except StorageErr Unit :=
  .error .notImplementedError

/-- `HttpInterface.list_files` (storage.py:826): unsupported, raises
unconditionally. -/
def HttpInterface.list_files (pre : String) (flat : Bool) :
    Except StorageErr (List String) :=
  .error .notImplementedError

/-- `_send_next_request` (storage.py:696/778): take the next path from the
tail of `available` and issue its request; returns the unchanged state and
no stream when `available` is empty or the transport is at its concurrent
stream limit (`TooManyStreamsError`).  Stream identifiers are immaterial in
the deterministic response model, so `running` holds the in-flight paths
in issue order and the returned flag stands for `stream_id is not None`. -/
def sendNextRequest (conn : HttpConn) (available : List String)
    (running : List String) : List String × List String × Bool :=
  match available.getLast? with
  | none => (available, running, false)
  | some fp =>
    if running.length < conn.maxStreams then
      (available.dropLast, running ++ [fp], true)
    else
      (available, running, false)

/-- `_get_response` inside `HttpInterface.get_files` (storage.py:714):
read one response; server-class errors fall back to the retried
single-file `get_file` (which, against a deterministic connection, fails
all attempts and re-raises); client-class errors (including not-found and
forbidden) are raised; otherwise the content is returned. -/
def HttpInterface.get_response (conn : HttpConn) (file_path : String) :
    Except StorageErr Bytes :=
  match classifyStatus (conn.status file_path) with
  | .serverError => HttpInterface.get_file conn file_path
  | .notFound => .error .httpNotFound
  | .forbidden => .error .httpForbidden
  | .clientError => .error .httpClientError
  | .success => .ok (conn.body file_path)

/-- The per-item `try/except` body of `HttpInterface.get_files`
(storage.py:739): any exception raised while reading an item's response is
captured into that item's `FileResult` (and printed), and the loop
continues. -/
def HttpInterface.get_file_entry (conn : HttpConn) (file_path : String) : FileResult :=
  match HttpInterface.get_response conn file_path with
  | .ok content => ⟨file_path, some content, none⟩
  | .error err => ⟨file_path, none, some err⟩

/-- The `while running:` loop of `HttpInterface.get_files`
(storage.py:733): while responses are pending, keep the pipe full (send
after every successful send) and otherwise consume the oldest pending
response, capturing any raised error into that item's `FileResult` and
issuing the next request.  One fuel unit per iteration; the wrapper below
supplies provably sufficient fuel. -/
def getFilesLoop (conn : HttpConn) :
    Nat → List String → List String → Bool → List FileResult → List FileResult
  | 0, _, _, _, results => results
  | fuel + 1, available, running, sentLast, results =>
    if running.isEmpty then results
    else if sentLast then
      let s := sendNextRequest conn available running
      getFilesLoop conn fuel s.1 s.2.1 s.2.2 results
    else
      match running with
      | [] => results
      | fp :: rest =>
        let s := sendNextRequest conn available rest
        getFilesLoop conn fuel s.1 s.2.1 s.2.2
          (results ++ [HttpInterface.get_file_entry conn fp])

/-- `HttpInterface.get_files` (storage.py:692): prime the pipe with one
request, then run the scheduling loop.  `2 * n + 2` fuel covers the loop:
every iteration strictly decreases `2*|available| + |running| +
(sentLast : 1/0)`. -/
def HttpInterface.get_files (conn : HttpConn) (file_paths : List String) :
    List FileResult :=
  let s := sendNextRequest conn file_paths []
  getFilesLoop conn (2 * file_paths.length + 2) s.1 s.2.1 s.2.2 []

/-- The result dict of `files_exist`, as an association list in insertion
order; Python dicts keep the first insertion position of a key. -/
abbrev ExistDict : Type := List (String × Option Bool)

/-- Membership of a key in the dict. -/
def dictHasKey (d : ExistDict) (k : String) : Bool :=
  d.any (fun e => e.1 = k)

/-- `{path: None for path in file_paths}` (storage.py:813): later duplicate
insertions of a key leave the dict unchanged. -/
def dictInit (file_paths : List String) : ExistDict :=
  file_paths.foldl
    (fun d p => if dictHasKey d p then d else d ++ [(p, none)]) []

/-- `result[file_path] = v` for a key that is already present. -/
def dictUpdate (d : ExistDict) (k : String) (v : Option Bool) : ExistDict :=
  d.map (fun e => if e.1 = k then (e.1, v) else e)

/-- `_get_response` inside `HttpInterface.files_exist` (storage.py:796):
not-found and forbidden resolve to `False`; a server-class error falls
back to the retried single-path `exists` (which, deterministically, fails
all attempts and re-raises); client-class errors are raised; success means
`True`. -/
def HttpInterface.exists_response (conn : HttpConn) (file_path : String) :
    Except StorageErr Bool :=
  match classifyStatus (conn.status file_path) with
  | .notFound => .ok false
  | .forbidden => .ok false
  | .serverError => HttpInterface.exists_file conn file_path
  | .clientError => .error .httpClientError
  | .success => .ok true

/-- The `while running:` loop of `HttpInterface.files_exist`
(storage.py:816).  Unlike `get_files`, the response handler's exceptions
are NOT caught here — `result[file_path] = _get_response(file_path, ...)`
propagates them, aborting the batch. -/
def filesExistLoop (conn : HttpConn) :
    Nat → List String → List String → Bool → ExistDict → Except StorageErr ExistDict
  | 0, _, _, _, _ => .error .outOfFuel
  | fuel + 1, available, running, sentLast, result =>
    if running.isEmpty then .ok result
    else if sentLast then
      let s := sendNextRequest conn available running
      filesExistLoop conn fuel s.1 s.2.1 s.2.2 result
    else
      match running with
      | [] => .ok result
      | fp :: rest =>
        match HttpInterface.exists_response conn fp with
        | .error e => .error e
        | .ok b =>
          let s := sendNextRequest conn available rest
          filesExistLoop conn fuel s.1 s.2.1 s.2.2 (dictUpdate result fp (some b))

/-- `HttpInterface.files_exist` (storage.py:774): initialize the result
dict over the input paths, prime the pipe, and run the loop (the
`outOfFuel` case of the embedding is unreachable with this fuel). -/
def HttpInterface.files_exist (conn : HttpConn) (file_paths : List String) :
    Except StorageErr ExistDict :=
  let s := sendNextRequest conn file_paths []
  filesExistLoop conn (2 * file_paths.length + 2) s.1 s.2.1 s.2.2
    (dictInit file_paths)

/-- Modelled from the spec: `lib.scatter(sequence, n)` (module
`cloudvolume/lib.py`, outside the storage source) fans the batch out over
the `n` workers; block `i` receives the elements at positions congruent to
`i` mod `n` (the strided slices `sequence[i::n]`). -/
def scatterBlock (file_paths : List String) (n : Nat) (i : Nat) : List String :=
  ((file_paths.enum).filter (fun e => e.1 % n = i)).map (fun e => e.2)

/-- `Storage.get_files` (storage.py:338): with `n = 0` threads the calling
thread runs the whole batch directly; with `n ≥ 1` worker threads the
batch is scattered into `n` blocks, each worker extends the shared result
list with its block's results, and `wait()` joins.  Workers race, so the
blocks arrive in an unspecified completion order: the embedding takes that
order as an explicit permutation `order` of `range n`. -/
def Storage.get_files (st : FS) (file_paths : List String) (n : Nat)
    (order : List Nat) : List FileResult :=
  if n = 0 then FileInterface.get_files st file_paths
  else (order.map (fun i => FileInterface.get_files st (scatterBlock file_paths n i))).flatten

/-- `Storage.files_exist` (storage.py:305): the same fan-out, with each
worker merging its block's `{path: bool}` dict into the shared `results`
dict via `results.update(...)`; merging appends unseen keys and overwrites
seen ones. -/
def dictMerge (d : List (String × Bool)) (upd : List (String × Bool)) :
    List (String × Bool) :=
  upd.foldl
    (fun acc e =>
      if acc.any (fun e0 => e0.1 = e.1) then
        acc.map (fun e0 => if e0.1 = e.1 then e else e0)
      else acc ++ [e]) d

/-- `Storage.files_exist` over the file backend, with worker count `n` and
block completion order `order`. -/
def Storage.files_exist (st : FS) (file_paths : List String) (n : Nat)
    (order : List Nat) : List (String × Bool) :=
  if n = 0 then FileInterface.files_exist st file_paths
  else order.foldl
    (fun acc i => dictMerge acc (FileInterface.files_exist st (scatterBlock file_paths n i))) []
/-- `S3Interface.put_file` (storage.py:842): `put_object` stores the
(already facade-compressed) body under the key, recording
`ContentEncoding: gzip` as object metadata when the write is compressed
(`ContentType`/`CacheControl` do not affect reads in this model). -/
def S3Interface.put_file (st : S3State) (file_path : String) (content : Bytes)
    (compress : Bool) : S3State :=
  fun q => if q = file_path then some (content, compress) else st q

/-- The `Storage` facade's write path over the S3 interface
(storage.py:287): `compression.compress(content, method)` is applied
before `interface.put_file`. -/
def s3StoragePutFile (st : S3State) (file_path : String) (content : Bytes)
    (compress : Bool) : S3State :=
  S3Interface.put_file st file_path (compressMethod compress content) compress

/-- The GCS backend's bucket state: blob name to (content, gzip
content-encoding flag), the metadata `put_file` records. -/
def GCSState : Type := String → Option (Bytes × Bool)

/-- `GoogleCloudStorageInterface.put_file` (storage.py:559): uploads the
(already facade-compressed) content and sets `blob.content_encoding =
"gzip"` when the write is compressed. -/
def GoogleCloudStorageInterface.put_file (st : GCSState) (file_path : String)
    (content : Bytes) (compress : Bool) : GCSState :=
  fun q => if q = file_path then some (content, compress) else st q

/-- `GoogleCloudStorageInterface.get_file` (storage.py:569): a missing
blob returns `None`; otherwise `download_as_string()` returns the content
with the SDK decompressing transparently according to the blob's content
encoding ("blob handles the decompression", storage.py:575) — modelled
with the spec-modelled codec. -/
def GoogleCloudStorageInterface.get_file (st : GCSState) (file_path : String) :
    Except StorageErr (Option Bytes) :=
  match st file_path with
  | none => .ok none
  | some (content, enc) => (gzipDecompress enc content).map some

/-- The `Storage` facade's write path over the GCS interface
(storage.py:287). -/
def gcsStoragePutFile (st : GCSState) (file_path : String) (content : Bytes)
    (compress : Bool) : GCSState :=
  GoogleCloudStorageInterface.put_file st file_path (compressMethod compress content)
    compress

/-- `decompress (compress b) = b` for the modelled codec. -/
theorem gzipDecompress_gzipCompress (b : Bytes) :
    gzipDecompress true (gzipCompress b) = .ok b := rfl


/-- `lexLe` is reflexive. -/
theorem lexLe_refl : ∀ cs : List Char, lexLe cs cs = true
  | [] => rfl
  | a :: as => by simp [lexLe, lexLe_refl as]

/-- A prefix is lexicographically at most any of its extensions. -/
theorem lexLe_of_prefix : ∀ (s t : List Char), s <+: t → lexLe s t = true
  | [], _, _ => rfl
  | a :: as, t, h => by
    obtain ⟨r, hr⟩ := h
    subst hr
    simp [lexLe, lexLe_of_prefix as (as ++ r) ⟨r, rfl⟩]

/-- Character codes are injective. -/
theorem charToNat_inj {a b : Char} (h : a.toNat = b.toNat) : a = b :=
  Char.ext (UInt32.ext h)

/-- Two character lists that agree up to position `i` and are strictly
ordered at position `i` are lexicographically ordered. -/
theorem lexLe_of_lt_at : ∀ (i : Nat) (s t : List Char) (a b : Char),
    s.take i = t.take i → s.get? i = some a → t.get? i = some b →
    a.toNat < b.toNat → lexLe s t = true
  | 0, s, t, a, b, _, hs, ht, hab => by
    cases s with
    | nil => rfl
    | cons x xs =>
      cases t with
      | nil => cases ht
      | cons y ys =>
        simp only [List.get?] at hs ht
        cases hs; cases ht
        simp [lexLe, hab]
  | i + 1, s, t, a, b, htake, hs, ht, hab => by
    cases s with
    | nil => rfl
    | cons x xs =>
      cases t with
      | nil => cases ht
      | cons y ys =>
        simp only [List.take_succ_cons, List.cons.injEq] at htake
        simp only [List.get?] at hs ht
        have := lexLe_of_lt_at i xs ys a b htake.2 hs ht hab
        simp [lexLe, htake.1, this]

/-- Count of an element in a filtered list. -/
theorem count_filter_eq (p : String → Bool) (a : String) (l : List String) :
    List.count a (l.filter p) = if p a = true then List.count a l else 0 := by
  by_cases h : p a = true
  · rw [if_pos h, List.count_filter h]
  · rw [if_neg h, List.count_eq_zero]
    intro hmem
    exact h (List.mem_filter.mp hmem).2

/-- Summing `if c = c0 then k else 0` over `range n` picks out `k`. -/
theorem sum_map_range_single (n c0 k : Nat) (h : c0 < n) :
    ((List.range n).map (fun c => if c = c0 then k else 0)).sum = k := by
  induction n with
  | zero => omega
  | succ m ih =>
    rw [List.range_succ, List.map_append, List.sum_append]
    by_cases hc : c0 = m
    · subst hc
      have h1 : ((List.range c0).map (fun c => if c = c0 then k else 0)).sum = 0 := by
        apply List.sum_eq_zero
        intro x hx
        obtain ⟨c, hc, rfl⟩ := List.mem_map.mp hx
        have : c ≠ c0 := Nat.ne_of_lt (List.mem_range.mp hc)
        simp [this]
      simp [h1]
    · have hlt : c0 < m := by omega
      rw [ih hlt]
      simp [hc, Ne.symm hc]

/-- The `done_bucket` and the 255 character buckets of one `_radix_sort`
level partition the input, counted elementwise. -/
theorem count_radix_partition (L : List String) (i : Nat) (a : String)
    (hchar : ∀ s ∈ L, ∀ c ∈ s.data, c.toNat < 255) :
    List.count a (L.filter (fun s => decide (s.data.length ≤ i)))
      + List.count a ((List.range 255).map
          (fun c => L.filter (fun s => charCodeAt s i = some c))).flatten
      = List.count a L := by
  rw [List.count_flatten, List.map_map, Function.comp_def]
  by_cases hmem : a ∈ L
  · cases hcc : charCodeAt a i with
    | none =>
      have hlen : a.data.length ≤ i := by
        have hnone : a.data.get? i = none := by
          unfold charCodeAt at hcc
          cases hget : a.data.get? i with
          | none => rfl
          | some ch => rw [hget] at hcc; cases hcc
        exact List.get?_eq_none.mp hnone
      have hdone : List.count a (L.filter (fun s => decide (s.data.length ≤ i)))
          = List.count a L := by
        rw [count_filter_eq, if_pos (decide_eq_true hlen)]
      have hbuckets : ((List.range 255).map
          (fun c => List.count a (L.filter (fun s => charCodeAt s i = some c)))).sum = 0 := by
        apply List.sum_eq_zero
        intro x hx
        obtain ⟨c, _, rfl⟩ := List.mem_map.mp hx
        rw [count_filter_eq, if_neg]
        rw [hcc]
        simp
      rw [hdone, hbuckets]
      omega
    | some c0 =>
      obtain ⟨ch, hch, hchn⟩ := Option.map_eq_some'.mp hcc
      have hilt : i < a.data.length := by
        rcases List.get?_eq_some.mp hch with ⟨h, _⟩
        exact h
      have hc0 : c0 < 255 := by
        rcases List.get?_eq_some.mp hch with ⟨h, hget⟩
        have hlt := hchar a hmem (a.data.get ⟨i, h⟩) (List.get_mem a.data i h)
        rw [hget] at hlt
        omega
      have hdone : List.count a (L.filter (fun s => decide (s.data.length ≤ i))) = 0 := by
        rw [count_filter_eq, if_neg]
        simp only [decide_eq_true_eq]
        omega
      have hmapeq : (List.range 255).map
            (fun c => List.count a (L.filter (fun s => charCodeAt s i = some c)))
          = (List.range 255).map (fun c => if c = c0 then List.count a L else 0) := by
        apply List.map_congr_left
        intro c _
        rw [count_filter_eq, hcc]
        by_cases hc : c = c0
        · subst hc
          rw [if_pos (by simp), if_pos rfl]
        · rw [if_neg (by simp [Ne.symm hc]), if_neg hc]
      rw [hmapeq, sum_map_range_single 255 c0 _ hc0, hdone]
      omega
  · have h0 : List.count a L = 0 := List.count_eq_zero.mpr hmem
    have hdone : List.count a (L.filter (fun s => decide (s.data.length ≤ i))) = 0 := by
      rw [count_filter_eq, h0]
      simp
    have hbuckets : ((List.range 255).map
        (fun c => List.count a (L.filter (fun s => charCodeAt s i = some c)))).sum = 0 := by
      apply List.sum_eq_zero
      intro x hx
      obtain ⟨c, _, rfl⟩ := List.mem_map.mp hx
      rw [count_filter_eq, h0]
      simp
    rw [hdone, hbuckets, h0]

/-- Pointwise permutation of the lists is preserved by `flatten` over a
common index list. -/
theorem flatten_map_perm (xs : List Nat) (f g : Nat → List String)
    (h : ∀ x ∈ xs, (f x).Perm (g x)) :
    ((xs.map f).flatten).Perm ((xs.map g).flatten) := by
  induction xs with
  | nil => exact List.Perm.refl _
  | cons x xs ih =>
    simp only [List.map_cons, List.flatten_cons]
    exact (h x (List.mem_cons_self x xs)).append
      (ih (fun y hy => h y (List.mem_cons_of_mem x hy)))

/-- Each level of `_radix_sort` permutes its input (for character codes
below 255, where the source does not fault). -/
theorem radixSortAux_perm : ∀ (fuel : Nat) (L : List String) (i : Nat),
    (∀ s ∈ L, ∀ c ∈ s.data, c.toNat < 255) →
    (radixSortAux fuel L i).Perm L
  | 0, L, _, _ => List.Perm.refl L
  | fuel + 1, L, i, hchar => by
    rw [radixSortAux]
    by_cases hlen : L.length ≤ 1
    · simp [hlen]
    · simp only [if_neg hlen]
      have hb : ∀ c ∈ List.range 255,
          (radixSortAux fuel (L.filter (fun s => charCodeAt s i = some c)) (i + 1)).Perm
            (L.filter (fun s => charCodeAt s i = some c)) := by
        intro c _
        exact radixSortAux_perm fuel _ (i + 1)
          (fun s hs => hchar s ((List.filter_sublist L).subset hs))
      have h1 := flatten_map_perm (List.range 255)
        (fun c => radixSortAux fuel (L.filter (fun s => charCodeAt s i = some c)) (i + 1))
        (fun c => L.filter (fun s => charCodeAt s i = some c)) hb
      have h2 : ((L.filter (fun s => decide (s.data.length ≤ i)))
          ++ ((List.range 255).map
            (fun c => L.filter (fun s => charCodeAt s i = some c))).flatten).Perm L := by
        rw [List.perm_iff_count]
        intro a
        rw [List.count_append, count_radix_partition L i a hchar]
      exact ((List.Perm.append_left _ h1).trans h2)
/-- A list whose elements are all equal is sorted. -/
theorem sortedLex_of_all_eq : ∀ (L : List String),
    (∀ s ∈ L, ∀ t ∈ L, s = t) → SortedLex L
  | [], _ => List.Pairwise.nil
  | x :: xs, h => by
    constructor
    · intro t ht
      rw [h x (List.mem_cons_self x xs) t (List.mem_cons_of_mem x ht)]
      exact lexLe_refl t.data
    · exact sortedLex_of_all_eq xs
        (fun s hs t ht => h s (List.mem_cons_of_mem x hs) t (List.mem_cons_of_mem x ht))

/-- Strings whose characters are all consumed by level `i` are equal to the
common `take i` prefix. -/
theorem eq_of_done_level {s t : String} {i : Nat}
    (hs : s.data.length ≤ i) (ht : t.data.length ≤ i)
    (hagree : s.data.take i = t.data.take i) : s = t := by
  apply String.ext
  rw [← List.take_of_length_le hs, ← List.take_of_length_le ht, hagree]

/-- Each level of `_radix_sort` sorts its input, provided all characters
have codes below 255, the fuel covers the longest remaining string, and the
input strings agree on their first `i` characters (the invariant the source
recursion maintains). -/
theorem radixSortAux_sorted : ∀ (fuel : Nat) (L : List String) (i : Nat),
    (∀ s ∈ L, ∀ c ∈ s.data, c.toNat < 255) →
    (∀ s ∈ L, s.data.length ≤ i + fuel) →
    (∀ s ∈ L, i ≤ s.data.length) →
    (∀ s ∈ L, ∀ t ∈ L, s.data.take i = t.data.take i) →
    SortedLex (radixSortAux fuel L i)
  | 0, L, i, _, hfuel, hmin, hagree => by
    apply sortedLex_of_all_eq
    intro s hs t ht
    have hs' : s.data.length ≤ i := by have := hfuel s hs; omega
    have ht' : t.data.length ≤ i := by have := hfuel t ht; omega
    exact eq_of_done_level hs' ht' (hagree s hs t ht)
  | fuel + 1, L, i, hchar, hfuel, hmin, hagree => by
    rw [radixSortAux]
    by_cases hlen : L.length ≤ 1
    · rw [if_pos hlen]
      match L with
      | [] => exact List.Pairwise.nil
      | [x] => exact List.pairwise_singleton _ x
      | x :: y :: xs => simp at hlen
    · rw [if_neg hlen]
      unfold SortedLex
      dsimp only
      rw [List.pairwise_append]
      refine ⟨?_, ?_, ?_⟩
      · -- the done bucket: all strings have length exactly i, hence are equal
        apply sortedLex_of_all_eq
        intro s hs t ht
        obtain ⟨hsL, hsd⟩ := List.mem_filter.mp hs
        obtain ⟨htL, htd⟩ := List.mem_filter.mp ht
        exact eq_of_done_level (of_decide_eq_true hsd) (of_decide_eq_true htd)
          (hagree s hsL t htL)
      · -- the buckets, flattened
        rw [List.pairwise_flatten]
        constructor
        · -- within one bucket: the inductive hypothesis applies at i + 1
          intro l hl
          obtain ⟨c, _, rfl⟩ := List.mem_map.mp hl
          apply radixSortAux_sorted fuel _ (i + 1)
          · intro s hs
            exact hchar s ((List.filter_sublist L).subset hs)
          · intro s hs
            have := hfuel s ((List.filter_sublist L).subset hs)
            omega
          · intro s hs
            obtain ⟨hsL, hsd⟩ := List.mem_filter.mp hs
            have hsome : charCodeAt s i = some c := of_decide_eq_true hsd
            obtain ⟨ch, hch, _⟩ := Option.map_eq_some'.mp hsome
            rcases List.get?_eq_some.mp hch with ⟨h, _⟩
            omega
          · intro s hs t ht
            obtain ⟨hsL, hsd⟩ := List.mem_filter.mp hs
            obtain ⟨htL, htd⟩ := List.mem_filter.mp ht
            obtain ⟨chs, hchs, hchsn⟩ := Option.map_eq_some'.mp (of_decide_eq_true hsd)
            obtain ⟨cht, hcht, hchtn⟩ := Option.map_eq_some'.mp (of_decide_eq_true htd)
            have hcheq : chs = cht := charToNat_inj (by rw [hchsn, hchtn])
            rw [List.take_succ, List.take_succ, hagree s hsL t htL,
              ← List.get?_eq_getElem?, ← List.get?_eq_getElem?, hchs, hcht, hcheq]
        · -- across buckets: smaller character code first
          have hpw : List.Pairwise (· < ·) (List.range 255) := List.pairwise_lt_range 255
          apply List.Pairwise.map
            (S := fun (l₁ l₂ : List String) => ∀ x ∈ l₁, ∀ y ∈ l₂, lexLe x.data y.data = true)
            _ _ hpw
          intro c c' hcc x hx y hy
          have hx' : x ∈ L.filter (fun s => charCodeAt s i = some c) :=
            (radixSortAux_perm fuel _ (i + 1)
              (fun s hs => hchar s ((List.filter_sublist L).subset hs))).subset hx
          have hy' : y ∈ L.filter (fun s => charCodeAt s i = some c') :=
            (radixSortAux_perm fuel _ (i + 1)
              (fun s hs => hchar s ((List.filter_sublist L).subset hs))).subset hy
          obtain ⟨hxL, hxd⟩ := List.mem_filter.mp hx'
          obtain ⟨hyL, hyd⟩ := List.mem_filter.mp hy'
          obtain ⟨chx, hchx, hchxn⟩ := Option.map_eq_some'.mp (of_decide_eq_true hxd)
          obtain ⟨chy, hchy, hchyn⟩ := Option.map_eq_some'.mp (of_decide_eq_true hyd)
          exact lexLe_of_lt_at i x.data y.data chx chy (hagree x hxL y hyL) hchx hchy
            (by omega)
      · -- done bucket before every bucket element: prefix order
        intro s hs y hy
        obtain ⟨hsL, hsd⟩ := List.mem_filter.mp hs
        obtain ⟨l, hl, hyl⟩ := List.mem_flatten.mp hy
        obtain ⟨c, _, rfl⟩ := List.mem_map.mp hl
        have hy' : y ∈ L.filter (fun t => charCodeAt t i = some c) :=
          (radixSortAux_perm fuel _ (i + 1)
            (fun t ht => hchar t ((List.filter_sublist L).subset ht))).subset hyl
        obtain ⟨hyL, hyd⟩ := List.mem_filter.mp hy'
        have hsi : s.data.length ≤ i := of_decide_eq_true hsd
        have hpre : s.data <+: y.data := by
          have heq : s.data = y.data.take i := by
            rw [← hagree s hsL y hyL]
            exact (List.take_of_length_le hsi).symm
          rw [heq]
          exact List.take_prefix i y.data
        exact lexLe_of_prefix s.data y.data hpre
/-- Every member's length is bounded by `maxStrLen`. -/
theorem length_le_maxStrLen : ∀ (L : List String) (s : String), s ∈ L →
    s.data.length ≤ maxStrLen L
  | [], s, h => by cases h
  | x :: xs, s, h => by
    unfold maxStrLen
    simp only [List.map_cons, List.foldr_cons]
    rcases List.mem_cons.mp h with rfl | hmem
    · exact Nat.le_max_left _ _
    · exact Nat.le_trans (length_le_maxStrLen xs s hmem) (Nat.le_max_right _ _)

/-- `_radix_sort` permutes its input (no element is lost or duplicated),
provided all character codes are below 255. -/
theorem radix_sort_perm (L : List String)
    (hchar : ∀ s ∈ L, ∀ c ∈ s.data, c.toNat < 255) :
    (radix_sort L).Perm L :=
  radixSortAux_perm (maxStrLen L + 1) L 0 hchar

/-- `_radix_sort` sorts its input lexicographically (most significant
character first), provided all character codes are below 255. -/
theorem radix_sort_sorted (L : List String)
    (hchar : ∀ s ∈ L, ∀ c ∈ s.data, c.toNat < 255) :
    SortedLex (radix_sort L) := by
  apply radixSortAux_sorted (maxStrLen L + 1) L 0 hchar
  · intro s hs
    have := length_le_maxStrLen L s hs
    omega
  · intro s _
    exact Nat.zero_le _
  · intro s _ t _
    rfl
/-- `dictUpdate` never changes the key set. -/
theorem dictHasKey_update (d : ExistDict) (k : String) (v : Option Bool) (q : String) :
    dictHasKey (dictUpdate d k v) q = dictHasKey d q := by
  induction d with
  | nil => rfl
  | cons e d ih =>
    unfold dictUpdate dictHasKey at *
    simp only [List.map_cons, List.any_cons]
    rw [ih]
    by_cases h : e.1 = k
    · simp [h]
    · simp [h]

/-- Folding insert-if-absent over a path list adds exactly those keys. -/
theorem dictHasKey_foldl_init (ps : List String) : ∀ (d : ExistDict) (q : String),
    dictHasKey
      (ps.foldl (fun d p => if dictHasKey d p then d else d ++ [(p, none)]) d) q = true
    ↔ dictHasKey d q = true ∨ q ∈ ps := by
  induction ps with
  | nil => simp
  | cons p ps ih =>
    intro d q
    simp only [List.foldl_cons]
    rw [ih]
    constructor
    · rintro (h | h)
      · by_cases hk : dictHasKey d p
        · rw [if_pos hk] at h
          exact Or.inl h
        · rw [if_neg hk] at h
          unfold dictHasKey at h
          rw [List.any_append] at h
          simp only [List.any_cons, List.any_nil, Bool.or_false, Bool.or_eq_true] at h
          rcases h with h | h
          · exact Or.inl h
          · simp only [decide_eq_true_eq] at h
            subst h
            simp
      · simp [h]
    · rintro (h | h)
      · left
        by_cases hk : dictHasKey d p
        · rwa [if_pos hk]
        · rw [if_neg hk]
          unfold dictHasKey at h ⊢
          rw [List.any_append, h]
          rfl
      · rcases List.mem_cons.mp h with rfl | hmem
        · left
          by_cases hk : dictHasKey d q
          · rwa [if_pos hk]
          · rw [if_neg hk]
            unfold dictHasKey
            rw [List.any_append]
            simp
        · exact Or.inr hmem

/-- The key set of the initialized result dict is exactly the input path
set. -/
theorem dictHasKey_init (ps : List String) (q : String) :
    dictHasKey (dictInit ps) q = true ↔ q ∈ ps := by
  unfold dictInit
  rw [dictHasKey_foldl_init]
  simp [dictHasKey]

/-- Whatever dict the `files_exist` scheduling loop returns has the same
key set as the dict it started from: updates only rewrite values. -/
theorem filesExistLoop_keys (conn : HttpConn) : ∀ (fuel : Nat)
    (available running : List String) (sentLast : Bool) (d m : ExistDict),
    filesExistLoop conn fuel available running sentLast d = .ok m →
    ∀ q, dictHasKey m q = dictHasKey d q
  | 0, a, r, flag, d, m, h => by cases h
  | fuel + 1, a, r, flag, d, m, h => by
    unfold filesExistLoop at h
    by_cases hr : r.isEmpty
    · rw [if_pos hr] at h
      cases h
      intro q; rfl
    · rw [if_neg hr] at h
      by_cases hflag : flag
      · rw [if_pos hflag] at h
        exact filesExistLoop_keys conn fuel _ _ _ _ m h
      · rw [if_neg hflag] at h
        cases r with
        | nil => cases h; intro q; rfl
        | cons fp rest =>
          dsimp only at h
          cases hresp : HttpInterface.exists_response conn fp with
          | error e => rw [hresp] at h; cases h
          | ok b =>
            rw [hresp] at h
            intro q
            rw [filesExistLoop_keys conn fuel _ _ _ _ m h q]
            exact dictHasKey_update d fp (some b) q
/-- Pointwise sums commute with mapping over a common list. -/
theorem sum_map_add (l : List Nat) (g h : Nat → Nat) :
    (l.map (fun i => g i + h i)).sum = (l.map g).sum + (l.map h).sum := by
  induction l with
  | nil => rfl
  | cons x l ih =>
    simp only [List.map_cons, List.sum_cons, ih]
    omega

/-- Counting pairs with second component `x`, split by the residue class
of the first component, adds up to the total count. -/
theorem sum_countP_stride (x : String) (n : Nat) (hn : n ≠ 0) :
    ∀ l : List (Nat × String),
    ((List.range n).map
        (fun i => l.countP (fun e => decide (e.2 = x) && decide (e.1 % n = i)))).sum
      = l.countP (fun e => decide (e.2 = x)) := by
  intro l
  induction l with
  | nil => simp
  | cons e l ih =>
    have hmap : (List.range n).map
          (fun i => (e :: l).countP (fun e => decide (e.2 = x) && decide (e.1 % n = i)))
        = (List.range n).map
          (fun i => l.countP (fun e => decide (e.2 = x) && decide (e.1 % n = i))
            + if decide (e.2 = x) && decide (e.1 % n = i) then 1 else 0) := by
      apply List.map_congr_left
      intro i _
      rw [List.countP_cons]
    rw [hmap, sum_map_add, ih, List.countP_cons]
    by_cases hx : e.2 = x
    · have hone : (List.range n).map
            (fun i => if decide (e.2 = x) && decide (e.1 % n = i) then 1 else 0)
          = (List.range n).map (fun i => if i = e.1 % n then 1 else 0) := by
        apply List.map_congr_left
        intro i _
        by_cases hi : e.1 % n = i
        · simp [hx, hi]
        · simp [hx, hi, Ne.symm hi]
      have hlt : e.1 % n < n := Nat.mod_lt _ (Nat.pos_of_ne_zero hn)
      rw [hone, sum_map_range_single n (e.1 % n) 1 hlt]
      simp [hx]
    · have hzero : ((List.range n).map
            (fun i => if decide (e.2 = x) && decide (e.1 % n = i) then 1 else 0)).sum = 0 := by
        apply List.sum_eq_zero
        intro y hy
        obtain ⟨i, _, rfl⟩ := List.mem_map.mp hy
        simp [hx]
      rw [hzero]
      simp [hx]

/-- Counting a value among second components. -/
theorem count_map_snd (x : String) (l : List (Nat × String)) :
    List.count x (l.map (fun e => e.2)) = l.countP (fun e => decide (e.2 = x)) := by
  induction l with
  | nil => rfl
  | cons e l ih =>
    simp only [List.map_cons, List.count_cons, List.countP_cons, ih]
    by_cases hx : e.2 = x
    · simp [hx]
    · simp [hx]

/-- Counting by second component over an enumeration ignores the indices. -/
theorem countP_snd_enumFrom (x : String) : ∀ (ps : List String) (k : Nat),
    (List.enumFrom k ps).countP (fun e => decide (e.2 = x)) = ps.count x
  | [], _ => rfl
  | p :: ps, k => by
    rw [List.enumFrom_cons, List.countP_cons, List.count_cons,
      countP_snd_enumFrom x ps (k + 1)]
    by_cases hx : p = x
    · simp [hx]
    · simp [hx]

/-- The strided `scatter` blocks reassemble to a permutation of the input:
no path is lost or duplicated by the fan-out. -/
theorem scatter_flatten_perm (ps : List String) (n : Nat) (hn : n ≠ 0) :
    (((List.range n).map (scatterBlock ps n)).flatten).Perm ps := by
  rw [List.perm_iff_count]
  intro x
  rw [List.count_flatten, List.map_map]
  have hmap : (List.range n).map (List.count x ∘ scatterBlock ps n)
      = (List.range n).map
        (fun i => (ps.enum).countP (fun e => decide (e.2 = x) && decide (e.1 % n = i))) := by
    apply List.map_congr_left
    intro i _
    show List.count x (scatterBlock ps n i) = _
    unfold scatterBlock
    rw [count_map_snd, List.countP_filter]
  rw [hmap, sum_countP_stride x n hn, List.enum_eq_enumFrom, countP_snd_enumFrom]
/-- Moving a singleton from the middle to the end is a permutation. -/
theorem perm_rotate_last (xs r dl : List String) (fp : String) :
    (xs ++ (r ++ [fp]) ++ dl).Perm (xs ++ r ++ (dl ++ [fp])) := by
  rw [List.perm_iff_count]
  intro x
  simp only [List.count_append]
  omega

/-- The per-item entry always carries its own path as `filename`. -/
theorem get_file_entry_filename (conn : HttpConn) (fp : String) :
    (HttpInterface.get_file_entry conn fp).filename = fp := by
  unfold HttpInterface.get_file_entry
  cases HttpInterface.get_response conn fp <;> rfl

/-- Every entry the `get_files` scheduling loop ever appends is the
deterministic per-path entry (per-item capture), so every output entry
is fully determined by its own path's response alone. -/
theorem getFilesLoop_pointwise (conn : HttpConn) : ∀ (fuel : Nat)
    (a r : List String) (flag : Bool) (res : List FileResult),
    (∀ e ∈ res, e = HttpInterface.get_file_entry conn e.filename) →
    ∀ e ∈ getFilesLoop conn fuel a r flag res,
      e = HttpInterface.get_file_entry conn e.filename
  | 0, a, r, flag, res, hres => hres
  | fuel + 1, a, r, flag, res, hres => by
    unfold getFilesLoop
    by_cases hr : r.isEmpty
    · rw [if_pos hr]; exact hres
    · rw [if_neg hr]
      by_cases hflag : flag
      · rw [if_pos hflag]
        exact getFilesLoop_pointwise conn fuel _ _ _ _ hres
      · rw [if_neg hflag]
        cases r with
        | nil => exact hres
        | cons fp rest =>
          dsimp only
          apply getFilesLoop_pointwise conn fuel
          intro e he
          rcases List.mem_append.mp he with h | h
          · exact hres e h
          · rcases List.mem_singleton.mp h with rfl
            rw [get_file_entry_filename]

/-- The filenames produced by the `get_files` scheduling loop are exactly
the accumulated filenames plus the pending and available paths, whenever
the transport admits at least one concurrent stream and the fuel covers
the remaining iterations (each iteration strictly decreases
`2*|available| + |running| + sentLast`). -/
theorem getFilesLoop_names (conn : HttpConn) (hms : 1 ≤ conn.maxStreams) :
    ∀ (fuel : Nat) (a r : List String) (flag : Bool) (res : List FileResult),
    2 * a.length + r.length + flag.toNat + 1 ≤ fuel →
    (r = [] → a = []) →
    ((getFilesLoop conn fuel a r flag res).map (fun e => e.filename)).Perm
      (res.map (fun e => e.filename) ++ r ++ a)
  | 0, a, r, flag, res, hfuel, _ => by omega
  | fuel + 1, a, r, flag, res, hfuel, hinv => by
    unfold getFilesLoop
    by_cases hr : r.isEmpty
    · rw [if_pos hr]
      have hrnil : r = [] := by
        cases r with
        | nil => rfl
        | cons x xs => simp [List.isEmpty] at hr
      have hanil : a = [] := hinv hrnil
      rw [hrnil, hanil]
      simp
    · rw [if_neg hr]
      have hrne : r ≠ [] := by
        intro hcon
        rw [hcon] at hr
        simp [List.isEmpty] at hr
      by_cases hflag : flag
      · rw [if_pos hflag]
        rw [hflag] at hfuel
        rw [Bool.toNat_true] at hfuel
        cases hlast : a.getLast? with
        | none =>
          have hs : sendNextRequest conn a r = (a, r, false) := by
            simp [sendNextRequest, hlast]
          rw [hs]
          exact getFilesLoop_names conn hms fuel a r false res
            (by rw [Bool.toNat_false]; omega) (fun h => absurd h hrne)
        | some fp =>
          have hane : a.dropLast ++ [fp] = a := List.dropLast_append_getLast? fp hlast
          have halen : a.length = a.dropLast.length + 1 := by
            conv_lhs => rw [← hane]
            simp
          by_cases hroom : r.length < conn.maxStreams
          · have hs : sendNextRequest conn a r = (a.dropLast, r ++ [fp], true) := by
              simp [sendNextRequest, hlast, hroom]
            rw [hs]
            have ih := getFilesLoop_names conn hms fuel a.dropLast (r ++ [fp]) true res
              (by rw [Bool.toNat_true]; simp only [List.length_append,
                List.length_cons, List.length_nil]; omega)
              (by simp)
            apply ih.trans
            conv_rhs => rw [← hane]
            exact perm_rotate_last _ r a.dropLast fp
          · have hs : sendNextRequest conn a r = (a, r, false) := by
              simp [sendNextRequest, hlast, hroom]
            rw [hs]
            exact getFilesLoop_names conn hms fuel a r false res
              (by rw [Bool.toNat_false]; omega) (fun h => absurd h hrne)
      · rw [if_neg hflag]
        have hfb : flag = false := by revert hflag; cases flag <;> simp
        rw [hfb, Bool.toNat_false] at hfuel
        cases r with
        | nil => exact absurd rfl hrne
        | cons fp rest =>
          dsimp only
          have hmapres : (res ++ [HttpInterface.get_file_entry conn fp]).map
                (fun e => e.filename)
              = res.map (fun e => e.filename) ++ [fp] := by
            rw [List.map_append]
            simp [get_file_entry_filename]
          rw [List.length_cons] at hfuel
          cases hlast : a.getLast? with
          | none =>
            have hanil : a = [] := by
              cases a with
              | nil => rfl
              | cons x xs => simp [List.getLast?_eq_some_iff] at hlast
            have hs : sendNextRequest conn a rest = (a, rest, false) := by
              simp [sendNextRequest, hlast]
            rw [hs]
            have ih := getFilesLoop_names conn hms fuel a rest false
              (res ++ [HttpInterface.get_file_entry conn fp])
              (by rw [Bool.toNat_false]; omega) (fun _ => hanil)
            apply ih.trans
            rw [hmapres, hanil]
            conv_rhs => rw [List.append_cons]
          | some fp2 =>
            have hane : a.dropLast ++ [fp2] = a := List.dropLast_append_getLast? fp2 hlast
            have halen : a.length = a.dropLast.length + 1 := by
              conv_lhs => rw [← hane]
              simp
            by_cases hroom : rest.length < conn.maxStreams
            · have hs : sendNextRequest conn a rest = (a.dropLast, rest ++ [fp2], true) := by
                simp [sendNextRequest, hlast, hroom]
              rw [hs]
              have ih := getFilesLoop_names conn hms fuel a.dropLast (rest ++ [fp2]) true
                (res ++ [HttpInterface.get_file_entry conn fp])
                (by rw [Bool.toNat_true]; simp only [List.length_append,
                  List.length_cons, List.length_nil]; omega)
                (by simp)
              apply ih.trans
              rw [hmapres]
              conv_rhs => rw [← hane, List.append_cons]
              exact perm_rotate_last _ rest a.dropLast fp2
            · have hrestne : rest ≠ [] := by
                intro hcon
                rw [hcon] at hroom
                simp at hroom
                omega
              have hs : sendNextRequest conn a rest = (a, rest, false) := by
                simp [sendNextRequest, hlast, hroom]
              rw [hs]
              have ih := getFilesLoop_names conn hms fuel a rest false
                (res ++ [HttpInterface.get_file_entry conn fp])
                (by rw [Bool.toNat_false]; omega) (fun h => absurd h hrestne)
              apply ih.trans
              rw [hmapres]
              conv_rhs => rw [List.append_cons]
/-- A successful attempt returns immediately from the retry loop. -/
theorem tenacityGo_first_ok {E A : Type} (tr : E → Bool) (f : Nat → Except E A)
    (fuel n : Nat) (a : A) (h : f n = .ok a) :
    tenacityGo tr f fuel n = .ok a := by
  cases fuel with
  | zero => exact h
  | succ fuel => unfold tenacityGo; rw [h]

/-- If every attempt in the window fails transiently and the attempt after
the window succeeds, the retry loop returns that success. -/
theorem tenacityGo_ok_after {E A : Type} (tr : E → Bool) (f : Nat → Except E A) (a : A) :
    ∀ (fuel n : Nat),
    (∀ i, n ≤ i → i < n + fuel → ∃ e, f i = .error e ∧ tr e = true) →
    f (n + fuel) = .ok a →
    tenacityGo tr f (fuel + 1) n = .ok a
  | 0, n, _, hok => by
    unfold tenacityGo
    rw [Nat.add_zero] at hok
    rw [hok]
  | fuel + 1, n, herr, hok => by
    unfold tenacityGo
    obtain ⟨e, he, htr⟩ := herr n (Nat.le_refl n) (by omega)
    rw [he]
    dsimp only
    have hfuel : decide (1 ≤ fuel + 1) = true := by simp
    rw [htr, hfuel]
    simp only [Bool.and_self, if_true]
    apply tenacityGo_ok_after tr f a fuel (n + 1)
    · intro i hi hi2
      exact herr i (by omega) (by omega)
    · rw [show n + 1 + fuel = n + (fuel + 1) by omega]
      exact hok

/-- If every attempt in the whole budget fails transiently, the retry loop
re-raises the last attempt's error. -/
theorem tenacityGo_all_fail {E A : Type} (tr : E → Bool) (f : Nat → Except E A)
    (es : Nat → E) :
    ∀ (fuel n : Nat),
    (∀ i, n ≤ i → i ≤ n + fuel → f i = .error (es i) ∧ tr (es i) = true) →
    tenacityGo tr f (fuel + 1) n = .error (es (n + fuel))
  | 0, n, herr => by
    unfold tenacityGo
    obtain ⟨he, _⟩ := herr n (Nat.le_refl n) (by omega)
    rw [he]
    dsimp only
    simp
  | fuel + 1, n, herr => by
    unfold tenacityGo
    obtain ⟨he, htr⟩ := herr n (Nat.le_refl n) (by omega)
    rw [he]
    dsimp only
    have hfuel : decide (1 ≤ fuel + 1) = true := by simp
    rw [htr, hfuel]
    simp only [Bool.and_self, if_true]
    rw [show n + (fuel + 1) = (n + 1) + fuel by omega]
    apply tenacityGo_all_fail tr f es fuel (n + 1)
    intro i hi hi2
    exact herr i (by omega) (by omega)

/-- A non-transient error propagates immediately, whatever budget is
left. -/
theorem tenacityGo_nontransient {E A : Type} (tr : E → Bool) (f : Nat → Except E A)
    (fuel n : Nat) (e : E) (he : f n = .error e) (htr : tr e = false) :
    tenacityGo tr f fuel n = .error e := by
  cases fuel with
  | zero => exact he
  | succ fuel =>
    unfold tenacityGo
    rw [he]
    dsimp only
    rw [htr]
    simp

/-- Appending `.gz` changes the path. -/
theorem append_gz_ne (p : String) : ¬(p ++ ".gz" = p) := by
  intro h
  have hlen := congrArg (fun s => s.data.length) h
  simp only [String.data_append, List.length_append] at hlen
  simp at hlen
/-- `stripgz` never invents characters: its output's characters come from
the input. -/
theorem stripgz_chars (s : String) : ∀ c ∈ (stripgz s).data, c ∈ s.data := by
  unfold stripgz
  split
  case h_1 z g d rest heq =>
    split
    case isTrue h =>
      intro c hc
      have hs : s.data = rest.reverse ++ [d, g, z] := by
        have h2 := congrArg List.reverse heq
        rw [List.reverse_reverse] at h2
        rw [h2]
        simp
      rw [hs]
      simp only [String.data] at hc
      exact List.mem_append_left _ hc
    case isFalse _ =>
      intro c hc
      exact hc
  case h_2 =>
    intro c hc
    exact hc

/-- With `flat=False`, the S3 listing is exactly the order-preserving
filter of the backend's paginated enumeration: no reordering happens. -/
theorem s3_list_files_nonflat (pages : List (List String)) (pre : String) :
    S3Interface.list_files pages pre false
      = pages.flatten.filter (fun k => decide (k.data.getLast? ≠ some '/')) := by
  unfold S3Interface.list_files
  induction pages.flatten with
  | nil => rfl
  | cons k l ih =>
    rw [List.filterMap_cons, List.filter_cons]
    by_cases h : k.data.getLast? = some '/'
    · simp [h] at ih ⊢
      exact ih
    · simp [h] at ih ⊢
      exact ih

/-- With `flat=False`, the GCS listing is exactly the order-preserving
filter of the backend's blob enumeration. -/
theorem gcs_list_files_nonflat (blobs : List String) (pre : String) :
    GoogleCloudStorageInterface.list_files blobs pre false
      = blobs.filter (fun k => decide (k.data.getLast? ≠ some '/')) := by
  unfold GoogleCloudStorageInterface.list_files
  induction blobs with
  | nil => rfl
  | cons k l ih =>
    rw [List.filterMap_cons, List.filter_cons]
    by_cases h : k.data.getLast? = some '/'
    · simp [h] at ih ⊢
      exact ih
    · simp [h] at ih ⊢
      exact ih

/-- The per-item result of the file backend's batched read carries its own
path. -/
theorem file_get_file_result_filename (st : FS) (p : String) :
    (FileInterface.get_file_result st p).filename = p := by
  unfold FileInterface.get_file_result
  cases FileInterface.get_file st p <;> rfl
/-- Claim C9: on the read-only HTTP backend, every invocation of put,
delete, or list raises `NotImplementedError` immediately, for any
arguments; the embedded operations take no state and are not wrapped in
the retry decorator (it is commented out in the source), so nothing is
retried and no state can be modified. -/
theorem claim_C9_http_unsupported_ops :
    (∀ (p : String) (c : Bytes) (ct : Option String) (comp : Bool) (cc : Option String),
      HttpInterface.put_file p c ct comp cc = .error .notImplementedError)
    ∧ (∀ p : String, HttpInterface.delete_file p = .error .notImplementedError)
    ∧ (∀ (pre : String) (flat : Bool),
        HttpInterface.list_files pre flat = .error .notImplementedError) :=
  ⟨fun _ _ _ _ _ => rfl, fun _ => rfl, fun _ _ => rfl⟩

/-- Claim C10: on the filesystem backend, when both `name` and `name.gz`
exist, `delete_file name` removes only the uncompressed variant and leaves
`name.gz` untouched, so `exists` still answers true immediately after the
delete. -/
theorem claim_C10_delete_keeps_gz (st : FS) (p : String)
    (h1 : (st p).isSome = true) (h2 : (st (p ++ ".gz")).isSome = true) :
    (FileInterface.delete_file st p) p = none
    ∧ (FileInterface.delete_file st p) (p ++ ".gz") = st (p ++ ".gz")
    ∧ FileInterface.exists_file (FileInterface.delete_file st p) p = true := by
  unfold FileInterface.delete_file
  rw [if_pos h1]
  refine ⟨?_, ?_, ?_⟩
  · unfold fsRemove
    rw [if_pos rfl]
  · unfold fsRemove
    rw [if_neg (append_gz_ne p)]
  · unfold FileInterface.exists_file fsRemove
    rw [if_pos rfl, if_neg (append_gz_ne p)]
    simp [h2]

/-- Witness for claim C10 at a concrete two-file state. -/
theorem claim_C10_delete_keeps_gz_witness :
    (FileInterface.delete_file
        (fun q => if q = "p" then some [1] else if q = "p.gz" then some [2] else none) "p") "p"
      = none
    ∧ (FileInterface.delete_file
        (fun q => if q = "p" then some [1] else if q = "p.gz" then some [2] else none) "p")
        ("p" ++ ".gz")
      = (fun q => if q = "p" then some [1] else if q = "p.gz" then some [2] else none)
          ("p" ++ ".gz")
    ∧ FileInterface.exists_file
        (FileInterface.delete_file
          (fun q => if q = "p" then some [1] else if q = "p.gz" then some [2] else none) "p")
        "p" = true :=
  claim_C10_delete_keeps_gz
    (fun q => if q = "p" then some [1] else if q = "p.gz" then some [2] else none) "p"
    (by decide) (by decide)

/-- Claim C8: a path absent from the backend state is not an error — the
single-item get returns `None` and the existence check returns `False`, on
the filesystem backend, the S3 backend (`NoSuchKey` → `None`, 404 →
`False`), and the HTTP backend (a 404 response resolves `exists` to
`False` without raising). -/
theorem claim_C8_not_found_is_not_error :
    (∀ (st : FS) (p : String), st p = none → st (p ++ ".gz") = none →
      FileInterface.get_file st p = .ok none ∧ FileInterface.exists_file st p = false)
    ∧ (∀ (st : S3State) (p : String), st p = none →
      S3Interface.get_file st p = .ok none ∧ S3Interface.exists_file st p = false)
    ∧ (∀ (conn : HttpConn) (p : String), conn.status p = 404 →
      HttpInterface.exists_file conn p = .ok false) := by
  refine ⟨?_, ?_, ?_⟩
  · intro st p h1 h2
    constructor
    · unfold FileInterface.get_file
      rw [h2]
      simp [h1]
    · unfold FileInterface.exists_file
      rw [h1, h2]
      rfl
  · intro st p h1
    constructor
    · unfold S3Interface.get_file
      rw [h1]
    · unfold S3Interface.exists_file
      rw [h1]
      rfl
  · intro conn p hstatus
    have h1 : HttpInterface.exists_once conn p = .ok false := by
      unfold HttpInterface.exists_once
      rw [hstatus]
      rfl
    unfold HttpInterface.exists_file tenacityCall
    exact tenacityGo_first_ok _ _ MAX_RETRIES 1 false h1

/-- Witness for claim C8 at concrete empty states and a 404 endpoint. -/
theorem claim_C8_not_found_is_not_error_witness :
    (FileInterface.get_file (fun _ => none) "q" = .ok none
      ∧ FileInterface.exists_file (fun _ => none) "q" = false)
    ∧ (S3Interface.get_file (fun _ => none) "q" = .ok none
      ∧ S3Interface.exists_file (fun _ => none) "q" = false)
    ∧ HttpInterface.exists_file ⟨fun _ => 404, fun _ => [], 10⟩ "q" = .ok false :=
  ⟨claim_C8_not_found_is_not_error.1 (fun _ => none) "q" rfl rfl,
   claim_C8_not_found_is_not_error.2.1 (fun _ => none) "q" rfl,
   claim_C8_not_found_is_not_error.2.2 ⟨fun _ => 404, fun _ => [], 10⟩ "q" rfl⟩
/-- Claim C3: the retry wrapper attempts the wrapped call at most
`MAX_RETRIES = 7` times: six transient failures followed by a success on
the seventh attempt yield that success; seven transient failures re-raise
the last error; an error not matched by the retry predicate propagates
immediately from the attempt that raised it. -/
theorem claim_C3_retry_budget :
    (∀ (tr : StorageErr → Bool) (f : Nat → Except StorageErr Bytes) (a : Bytes),
      (∀ i, 1 ≤ i → i < 7 → ∃ e, f i = .error e ∧ tr e = true) →
      f 7 = .ok a →
      tenacityCall tr f = .ok a)
    ∧ (∀ (tr : StorageErr → Bool) (f : Nat → Except StorageErr Bytes)
        (es : Nat → StorageErr),
      (∀ i, 1 ≤ i → i ≤ 7 → f i = .error (es i) ∧ tr (es i) = true) →
      tenacityCall tr f = .error (es 7))
    ∧ (∀ (tr : StorageErr → Bool) (f : Nat → Except StorageErr Bytes) (e : StorageErr),
      f 1 = .error e → tr e = false →
      tenacityCall tr f = .error e) := by
  refine ⟨?_, ?_, ?_⟩
  · intro tr f a herr hok
    unfold tenacityCall
    rw [show MAX_RETRIES = 6 + 1 from rfl]
    apply tenacityGo_ok_after tr f a 6 1
    · intro i hi hi2
      exact herr i hi (by omega)
    · exact hok
  · intro tr f es herr
    unfold tenacityCall
    rw [show MAX_RETRIES = 6 + 1 from rfl]
    rw [show es 7 = es (1 + 6) from rfl]
    apply tenacityGo_all_fail tr f es 6 1
    intro i hi hi2
    exact herr i hi (by omega)
  · intro tr f e he htr
    unfold tenacityCall
    exact tenacityGo_nontransient tr f MAX_RETRIES 1 e he htr

/-- Witness for claim C3: a call succeeding on the seventh attempt, a call
failing all seven attempts, and a non-transient first failure. -/
theorem claim_C3_retry_budget_witness :
    tenacityCall (fun _ => true)
        (fun i => if i < 7 then (.error .httpServerError : Except StorageErr Bytes)
          else .ok [42])
      = .ok [42]
    ∧ tenacityCall (fun _ => true)
        (fun _ => (.error .httpServerError : Except StorageErr Bytes))
      = .error .httpServerError
    ∧ tenacityCall (fun _ => false)
        (fun _ => (.error .httpClientError : Except StorageErr Bytes))
      = .error .httpClientError :=
  ⟨claim_C3_retry_budget.1 (fun _ => true)
      (fun i => if i < 7 then (.error .httpServerError : Except StorageErr Bytes)
        else .ok [42]) [42]
      (fun i h1 h2 => ⟨StorageErr.httpServerError, by simp [h2], rfl⟩)
      (by simp),
   claim_C3_retry_budget.2.1 (fun _ => true)
      (fun _ => .error .httpServerError) (fun _ => .httpServerError)
      (fun i _ _ => ⟨rfl, rfl⟩),
   claim_C3_retry_budget.2.2 (fun _ => false)
      (fun _ => .error .httpClientError) .httpClientError rfl rfl⟩

/-- Claim C7, corrected: `put(P, C); get(P) = C` across the writable
backends.  On the S3 and GCS backends the round trip holds
unconditionally, with and without compression (the encoding travels as
object metadata and decompression on read is transparent).  On the
filesystem backend it holds unconditionally when the write is compressed,
and when the write is uncompressed provided no stale compressed sibling
`P.gz` is present in the state — `get_file` prefers the `.gz` variant, so
a leftover `P.gz` shadows an uncompressed write (see the
counterexample). -/
theorem claim_C7_roundtrip_amended :
    (∀ (st : FS) (p : String) (c : Bytes),
      FileInterface.get_file (storagePutFile st p c true) p = .ok (some c)
      ∧ (st (p ++ ".gz") = none →
          FileInterface.get_file (storagePutFile st p c false) p = .ok (some c)))
    ∧ (∀ (st : S3State) (p : String) (c : Bytes) (compress : Bool),
        S3Interface.get_file (s3StoragePutFile st p c compress) p = .ok (some c))
    ∧ (∀ (st : GCSState) (p : String) (c : Bytes) (compress : Bool),
        GoogleCloudStorageInterface.get_file (gcsStoragePutFile st p c compress) p
          = .ok (some c)) := by
  refine ⟨?_, ?_, ?_⟩
  · intro st p c
    constructor
    · unfold storagePutFile FileInterface.put_file compressMethod
        FileInterface.get_file fsWrite
      simp [gzipDecompress, gzipCompress]
      rfl
    · intro hgz
      unfold storagePutFile FileInterface.put_file compressMethod
        FileInterface.get_file fsWrite
      simp [append_gz_ne p, hgz, gzipDecompress]
      rfl
  · intro st p c compress
    unfold s3StoragePutFile S3Interface.put_file compressMethod S3Interface.get_file
    dsimp only
    rw [if_pos rfl]
    cases compress
    · rfl
    · rfl
  · intro st p c compress
    unfold gcsStoragePutFile GoogleCloudStorageInterface.put_file compressMethod
      GoogleCloudStorageInterface.get_file
    dsimp only
    rw [if_pos rfl]
    cases compress
    · rfl
    · rfl

/-- Witness for claim C7's amended statement at concrete states, both
with and without compression, on all three writable backends. -/
theorem claim_C7_roundtrip_amended_witness :
    (FileInterface.get_file (storagePutFile (fun _ => none) "p" [2] true) "p"
      = .ok (some [2])
    ∧ FileInterface.get_file (storagePutFile (fun _ => none) "p" [2] false) "p"
      = .ok (some [2]))
    ∧ (S3Interface.get_file (s3StoragePutFile (fun _ => none) "p" [2] true) "p"
      = .ok (some [2])
    ∧ S3Interface.get_file (s3StoragePutFile (fun _ => none) "p" [2] false) "p"
      = .ok (some [2]))
    ∧ (GoogleCloudStorageInterface.get_file
        (gcsStoragePutFile (fun _ => none) "p" [2] true) "p" = .ok (some [2])
    ∧ GoogleCloudStorageInterface.get_file
        (gcsStoragePutFile (fun _ => none) "p" [2] false) "p" = .ok (some [2])) :=
  ⟨⟨(claim_C7_roundtrip_amended.1 (fun _ => none) "p" [2]).1,
    (claim_C7_roundtrip_amended.1 (fun _ => none) "p" [2]).2 rfl⟩,
   ⟨claim_C7_roundtrip_amended.2.1 (fun _ => none) "p" [2] true,
    claim_C7_roundtrip_amended.2.1 (fun _ => none) "p" [2] false⟩,
   ⟨claim_C7_roundtrip_amended.2.2 (fun _ => none) "p" [2] true,
    claim_C7_roundtrip_amended.2.2 (fun _ => none) "p" [2] false⟩⟩

/-- Counterexample to claim C7 as stated: with a stale compressed sibling
`p.gz` in the state, an uncompressed `put("p", [2])` followed by
`get("p")` returns the stale `[1]`, not `[2]` — the round trip fails. -/
theorem claim_C7_roundtrip_counterexample :
    FileInterface.get_file
        (storagePutFile (fun q => if q = "p.gz" then some (gzipCompress [1]) else none)
          "p" [2] false) "p"
      = .ok (some [1])
    ∧ ¬(FileInterface.get_file
        (storagePutFile (fun q => if q = "p.gz" then some (gzipCompress [1]) else none)
          "p" [2] false) "p"
      = .ok (some [2])) :=
  ⟨rfl, fun h => by cases h⟩
/-- A singleton list is already sorted, so `_radix_sort` returns it at
once. -/
theorem radix_sort_singleton (x : String) : radix_sort [x] = [x] := by
  unfold radix_sort
  rw [radixSortAux]
  rw [if_pos (by simp)]

/-- The empty-prefix filter of the recursive listing keeps every file. -/
theorem filter_empty_prefix (l : List String) :
    l.filter (fun f => strPrefix "" f) = l :=
  List.filter_eq_self.mpr (fun _ _ => rfl)

/-- Claim C5, corrected: a file stored only as `name.gz` is listed exactly
once, as `name`; but when the uncompressed sibling `name` also exists the
two entries do NOT collapse — both are normalized to `name` and the
listing contains `name` twice (the source never deduplicates).  The
hypotheses pin down that `name` itself carries no `.gz` suffix and that
stripping `name.gz` yields `name`, as in the claim's scenario. -/
theorem claim_C5_gz_appears_amended (name : String)
    (hchar : ∀ c ∈ name.data, c.toNat < 255)
    (h1 : stripgz name = name) (h2 : stripgz (name ++ ".gz") = name) :
    FileInterface.list_files [name ++ ".gz"] "" false = [name]
    ∧ (FileInterface.list_files [name, name ++ ".gz"] "" false).count name = 2 := by
  constructor
  · unfold FileInterface.list_files
    rw [if_neg (by simp), filter_empty_prefix]
    dsimp only
    rw [List.map_cons, List.map_nil, h2]
    exact radix_sort_singleton name
  · unfold FileInterface.list_files
    rw [if_neg (by simp), filter_empty_prefix]
    dsimp only
    rw [List.map_cons, List.map_cons, List.map_nil, h1, h2]
    have hperm := radix_sort_perm [name, name] (by
      intro s hs
      rcases List.mem_cons.mp hs with rfl | hs2
      · exact hchar
      · rcases List.mem_cons.mp hs2 with rfl | hs3
        · exact hchar
        · cases hs3)
    rw [hperm.count_eq name]
    simp

/-- Witness for claim C5's amended statement at `name = "name"`. -/
theorem claim_C5_gz_appears_amended_witness :
    FileInterface.list_files ["name" ++ ".gz"] "" false = ["name"]
    ∧ (FileInterface.list_files ["name", "name" ++ ".gz"] "" false).count "name" = 2 :=
  claim_C5_gz_appears_amended "name" (by decide) (by decide) (by decide)

/-- Counterexample to claim C5 as stated: with both `name` and `name.gz`
on disk, the listing yields `name` twice, not "exactly once". -/
theorem claim_C5_counterexample :
    FileInterface.list_files ["name", "name.gz"] "" false = ["name", "name"]
    ∧ (FileInterface.list_files ["name", "name.gz"] "" false).count "name" ≠ 1 :=
  ⟨by decide, by decide⟩

/-- Counterexample to claim C6 as stated: for objects `a/b/c`, `a/b/d`,
`a/e`, the flat listing with prefix `a/` yields only the immediate file
`a/e`, with no `a/b/`-style entry for the subdirectory, on both the
filesystem backend (`glob` + `isfile` skips directories) and the GCS
backend (no delimiter is passed, deeper objects are filtered out
entirely). -/
theorem claim_C6_counterexample :
    FileInterface.list_files ["a/b/c", "a/b/d", "a/e"] "a/" true = ["a/e"]
    ∧ GoogleCloudStorageInterface.list_files ["a/b/c", "a/b/d", "a/e"] "a/" true = ["a/e"]
    ∧ ¬("a/b/" ∈ FileInterface.list_files ["a/b/c", "a/b/d", "a/e"] "a/" true
        ∨ "a/b" ∈ FileInterface.list_files ["a/b/c", "a/b/d", "a/e"] "a/" true) :=
  ⟨by decide, by decide, by decide⟩

/-- Claim C6, corrected: with objects `a/b/c`, `a/b/d`, `a/e`, the
recursive listing (`flat=false`) yields all three full relative paths, but
the flat listing yields only the one-level file entry `a/e` — the deeper
objects are omitted entirely rather than collapsed into a directory
entry. -/
theorem claim_C6_flat_recursive_amended :
    FileInterface.list_files ["a/b/c", "a/b/d", "a/e"] "a/" false
      = ["a/b/c", "a/b/d", "a/e"]
    ∧ FileInterface.list_files ["a/b/c", "a/b/d", "a/e"] "a/" true = ["a/e"]
    ∧ GoogleCloudStorageInterface.list_files ["a/b/c", "a/b/d", "a/e"] "a/" false
      = ["a/b/c", "a/b/d", "a/e"]
    ∧ GoogleCloudStorageInterface.list_files ["a/b/c", "a/b/d", "a/e"] "a/" true
      = ["a/e"] :=
  ⟨by decide, by decide, by decide, by decide⟩
/-- Claim C4, corrected: only the filesystem backend passes its raw
enumeration through the deterministic most-significant-character radix
sort — its listing is lexicographically sorted and is a permutation of the
suffix-normalized matches.  The S3 and GCS listings yield the backend's
raw enumeration order unchanged apart from per-item filtering, performing
no sort of their own (see the counterexample). -/
theorem claim_C4_listing_order_amended :
    (∀ (files : List String) (pre : String) (flat : Bool),
      (∀ s ∈ files, ∀ c ∈ s.data, c.toNat < 255) →
      SortedLex (FileInterface.list_files files pre flat)
      ∧ (FileInterface.list_files files pre flat).Perm
          ((if flat then files.filter (globFlatMatch pre)
            else files.filter (fun f => strPrefix pre f)).map stripgz))
    ∧ (∀ (pages : List (List String)) (pre : String),
        S3Interface.list_files pages pre false
          = pages.flatten.filter (fun k => decide (k.data.getLast? ≠ some '/')))
    ∧ (∀ (blobs : List String) (pre : String),
        GoogleCloudStorageInterface.list_files blobs pre false
          = blobs.filter (fun k => decide (k.data.getLast? ≠ some '/'))) := by
  refine ⟨?_, s3_list_files_nonflat, gcs_list_files_nonflat⟩
  intro files pre flat hchar
  have hsub : ∀ f ∈ (if flat then files.filter (globFlatMatch pre)
      else files.filter (fun f => strPrefix pre f)), f ∈ files := by
    intro f hf
    by_cases hfl : flat
    · rw [if_pos hfl] at hf
      exact (List.filter_sublist files).subset hf
    · rw [if_neg hfl] at hf
      exact (List.filter_sublist files).subset hf
  have hcharM : ∀ s ∈ ((if flat then files.filter (globFlatMatch pre)
      else files.filter (fun f => strPrefix pre f)).map stripgz),
      ∀ c ∈ s.data, c.toNat < 255 := by
    intro s hs c hc
    obtain ⟨f, hf, rfl⟩ := List.mem_map.mp hs
    exact hchar f (hsub f hf) c (stripgz_chars f c hc)
  have hdef : FileInterface.list_files files pre flat
      = radix_sort ((if flat then files.filter (globFlatMatch pre)
          else files.filter (fun f => strPrefix pre f)).map stripgz) := rfl
  rw [hdef]
  exact ⟨radix_sort_sorted _ hcharM, radix_sort_perm _ hcharM⟩

/-- Witness for claim C4's amended statement at concrete inputs. -/
theorem claim_C4_listing_order_amended_witness :
    (SortedLex (FileInterface.list_files ["b", "a"] "" false)
      ∧ (FileInterface.list_files ["b", "a"] "" false).Perm
          ((if false then List.filter (globFlatMatch "") ["b", "a"]
            else List.filter (fun f => strPrefix "" f) ["b", "a"]).map stripgz))
    ∧ S3Interface.list_files [["b", "a"]] "x" false
      = [["b", "a"]].flatten.filter (fun k => decide (k.data.getLast? ≠ some '/'))
    ∧ GoogleCloudStorageInterface.list_files ["b", "a"] "x" false
      = ["b", "a"].filter (fun k => decide (k.data.getLast? ≠ some '/')) :=
  ⟨claim_C4_listing_order_amended.1 ["b", "a"] "" false (by decide),
   claim_C4_listing_order_amended.2.1 [["b", "a"]] "x",
   claim_C4_listing_order_amended.2.2 ["b", "a"] "x"⟩

/-- Counterexample to claim C4 as stated: the S3 backend's listing is not
the radix sort of its raw enumeration — a backend enumeration `["b", "a"]`
is yielded in backend order, unsorted. -/
theorem claim_C4_counterexample :
    S3Interface.list_files [["b", "a"]] "" false = ["b", "a"]
    ∧ radix_sort ["b", "a"] = ["a", "b"]
    ∧ S3Interface.list_files [["b", "a"]] "" false ≠ radix_sort ["b", "a"] :=
  ⟨by decide, by decide, by decide⟩
/-- The file backend's batched read returns one result per input path, in
order, keyed by that path. -/
theorem file_get_files_filenames (st : FS) (ps : List String) :
    (FileInterface.get_files st ps).map (fun r => r.filename) = ps := by
  unfold FileInterface.get_files
  rw [List.map_map]
  have h : ∀ p ∈ ps, ((fun r => r.filename) ∘ FileInterface.get_file_result st) p
      = (fun p => p) p := by
    intro p _
    exact file_get_file_result_filename st p
  rw [List.map_congr_left h, List.map_id']

/-- Claim C1: batched `get_files` and `files_exist` account for exactly
the input path set.  (a) The file backend's `get_files` returns results
keyed exactly by the input paths, in order.  (b) The `Storage` facade's
threaded `get_files` — for worker count 0 or any `n` with any block
completion order — returns a permutation of exactly the input paths.
(c) Whenever the HTTP backend's pipelined `files_exist` returns a dict,
its key set is exactly the input path set, whatever the response
classification and stream limit. -/
theorem claim_C1_batch_totality :
    (∀ (st : FS) (ps : List String),
      (FileInterface.get_files st ps).map (fun r => r.filename) = ps)
    ∧ (∀ (st : FS) (ps : List String) (n : Nat) (order : List Nat),
        (n = 0 ∨ order.Perm (List.range n)) →
        ((Storage.get_files st ps n order).map (fun r => r.filename)).Perm ps)
    ∧ (∀ (conn : HttpConn) (ps : List String) (m : ExistDict),
        HttpInterface.files_exist conn ps = .ok m →
        ∀ q, dictHasKey m q = true ↔ q ∈ ps) := by
  refine ⟨file_get_files_filenames, ?_, ?_⟩
  · intro st ps n order h
    by_cases hn : n = 0
    · subst hn
      unfold Storage.get_files
      rw [if_pos rfl, file_get_files_filenames]
    · have hperm : order.Perm (List.range n) := h.resolve_left hn
      unfold Storage.get_files
      rw [if_neg hn, List.map_flatten, List.map_map]
      have hblocks : order.map ((List.map (fun r => r.filename))
            ∘ (fun i => FileInterface.get_files st (scatterBlock ps n i)))
          = order.map (fun i => scatterBlock ps n i) := by
        apply List.map_congr_left
        intro i _
        exact file_get_files_filenames st (scatterBlock ps n i)
      rw [hblocks]
      exact ((hperm.map (scatterBlock ps n)).flatten).trans (scatter_flatten_perm ps n hn)
  · intro conn ps m h q
    rw [filesExistLoop_keys conn _ _ _ _ _ m h q]
    exact dictHasKey_init ps q

/-- Witness for claim C1 at concrete states, a two-worker fan-out with
reversed completion order, and an all-200 HTTP endpoint. -/
theorem claim_C1_batch_totality_witness :
    ((FileInterface.get_files (fun _ => none) ["a", "b"]).map (fun r => r.filename)
      = ["a", "b"])
    ∧ (((Storage.get_files (fun _ => none) ["a", "b", "c"] 2 [1, 0]).map
        (fun r => r.filename)).Perm ["a", "b", "c"])
    ∧ (∀ q, dictHasKey [("a", some true), ("b", some true)] q = true ↔ q ∈ ["a", "b"]) :=
  ⟨claim_C1_batch_totality.1 (fun _ => none) ["a", "b"],
   claim_C1_batch_totality.2.1 (fun _ => none) ["a", "b", "c"] 2 [1, 0]
     (Or.inr (by decide)),
   claim_C1_batch_totality.2.2 ⟨fun _ => 200, fun _ => [], 10⟩ ["a", "b"]
     [("a", some true), ("b", some true)] rfl⟩
/-- The HTTP pipelined `get_files` processes every input path and builds
each entry from that path's own response alone (per-item capture, so one
bad item cannot disturb the others), whenever the transport admits at
least one stream. -/
theorem http_get_files_complete (conn : HttpConn) (ps : List String)
    (hms : 1 ≤ conn.maxStreams) :
    ((HttpInterface.get_files conn ps).map (fun r => r.filename)).Perm ps
    ∧ ∀ r ∈ HttpInterface.get_files conn ps,
        r = HttpInterface.get_file_entry conn r.filename := by
  unfold HttpInterface.get_files
  cases hlast : ps.getLast? with
  | none =>
    have hnil : ps = [] := List.getLast?_eq_none_iff.mp hlast
    have hs : sendNextRequest conn ps [] = (ps, [], false) := by
      simp [sendNextRequest, hlast]
    rw [hs]
    constructor
    · have hn := getFilesLoop_names conn hms (2 * ps.length + 2) ps [] false []
        (by simp) (fun _ => hnil)
      simpa using hn
    · exact getFilesLoop_pointwise conn _ _ _ _ []
        (fun e he => absurd he (List.not_mem_nil e))
  | some fp =>
    have hane : ps.dropLast ++ [fp] = ps := List.dropLast_append_getLast? fp hlast
    have halen : ps.length = ps.dropLast.length + 1 := by
      conv_lhs => rw [← hane]
      simp
    have h0 : 0 < conn.maxStreams := hms
    have hs : sendNextRequest conn ps [] = (ps.dropLast, [fp], true) := by
      simp [sendNextRequest, hlast, h0]
    rw [hs]
    constructor
    · have hn := getFilesLoop_names conn hms (2 * ps.length + 2) ps.dropLast [fp] true []
        (by simp [Bool.toNat_true]; omega)
        (fun hcon => absurd hcon (List.cons_ne_nil fp []))
      apply hn.trans
      simp only [List.map_nil, List.nil_append]
      have hcomm := @List.perm_append_comm _ [fp] ps.dropLast
      rw [hane] at hcomm
      exact hcomm
    · exact getFilesLoop_pointwise conn _ _ _ _ []
        (fun e he => absurd he (List.not_mem_nil e))

/-- Claim C2, corrected.  For batched `get_files` the claim holds on every
backend: a per-item failure is captured into that item's `FileResult`
(with a non-null `error`) and every other item's result is exactly what it
would be without the failing item — for the sequential backends the result
list literally decomposes around the failing item, and for the pipelined
HTTP backend every input path is processed and each entry depends only on
its own path's response.  For batched `files_exist`, however, only
not-found/forbidden responses are resolved in place (to `False`); a
client-class error response aborts the whole batch with the raised
exception (last conjunct and the counterexample), so the claim's "never
stops the batch" fails for existence checks. -/
theorem claim_C2_partial_failure_amended :
    (∀ (st : FS) (l1 l2 : List String) (bad : String),
      FileInterface.get_files st (l1 ++ bad :: l2)
        = FileInterface.get_files st l1
          ++ FileInterface.get_file_result st bad :: FileInterface.get_files st l2)
    ∧ (∀ (st : FS) (p : String) (e : StorageErr),
        FileInterface.get_file st p = .error e →
        FileInterface.get_file_result st p = ⟨p, none, some e⟩)
    ∧ (∀ (st : S3State) (l1 l2 : List String) (bad : String),
      S3Interface.get_files st (l1 ++ bad :: l2)
        = S3Interface.get_files st l1
          ++ S3Interface.get_file_result st bad :: S3Interface.get_files st l2)
    ∧ (∀ (st : S3State) (p : String) (e : StorageErr),
        S3Interface.get_file st p = .error e →
        S3Interface.get_file_result st p = ⟨p, none, some e⟩)
    ∧ (∀ (conn : HttpConn) (ps : List String), 1 ≤ conn.maxStreams →
        ((HttpInterface.get_files conn ps).map (fun r => r.filename)).Perm ps
        ∧ ∀ r ∈ HttpInterface.get_files conn ps,
            r = HttpInterface.get_file_entry conn r.filename)
    ∧ (∀ (conn : HttpConn) (p : String),
        classifyStatus (conn.status p) = .notFound
          ∨ classifyStatus (conn.status p) = .forbidden →
        HttpInterface.exists_response conn p = .ok false)
    ∧ HttpInterface.files_exist
        ⟨fun p => if p = "x" then 400 else 200, fun _ => [], 5⟩ ["x", "y"]
        = .error .httpClientError := by
  refine ⟨?_, ?_, ?_, ?_, http_get_files_complete, ?_, rfl⟩
  · intro st l1 l2 bad
    unfold FileInterface.get_files
    rw [List.map_append, List.map_cons]
  · intro st p e h
    unfold FileInterface.get_file_result
    rw [h]
  · intro st l1 l2 bad
    unfold S3Interface.get_files
    rw [List.map_append, List.map_cons]
  · intro st p e h
    unfold S3Interface.get_file_result
    rw [h]
  · intro conn p h
    unfold HttpInterface.exists_response
    rcases h with h | h <;> rw [h]

/-- Witness for claim C2's amended statement: a corrupt compressed file in
the middle of a filesystem batch is captured per-item; the HTTP batch over
two paths is complete and per-item; a 404 existence response resolves to
`False`. -/
theorem claim_C2_partial_failure_amended_witness :
    (FileInterface.get_files (fun q => if q = "x.gz" then some [9] else none)
        (["a"] ++ "x" :: ["b"])
      = FileInterface.get_files (fun q => if q = "x.gz" then some [9] else none) ["a"]
        ++ FileInterface.get_file_result
            (fun q => if q = "x.gz" then some [9] else none) "x"
          :: FileInterface.get_files
              (fun q => if q = "x.gz" then some [9] else none) ["b"])
    ∧ (FileInterface.get_file_result (fun q => if q = "x.gz" then some [9] else none) "x"
        = ⟨"x", none, some .decompressError⟩)
    ∧ (((HttpInterface.get_files ⟨fun _ => 200, fun _ => [], 3⟩ ["a", "b"]).map
          (fun r => r.filename)).Perm ["a", "b"]
        ∧ ∀ r ∈ HttpInterface.get_files ⟨fun _ => 200, fun _ => [], 3⟩ ["a", "b"],
            r = HttpInterface.get_file_entry ⟨fun _ => 200, fun _ => [], 3⟩ r.filename)
    ∧ HttpInterface.exists_response ⟨fun _ => 404, fun _ => [], 3⟩ "q" = .ok false :=
  ⟨claim_C2_partial_failure_amended.1 (fun q => if q = "x.gz" then some [9] else none)
      ["a"] ["b"] "x",
   claim_C2_partial_failure_amended.2.1 (fun q => if q = "x.gz" then some [9] else none)
      "x" .decompressError rfl,
   claim_C2_partial_failure_amended.2.2.2.2.1 ⟨fun _ => 200, fun _ => [], 3⟩ ["a", "b"]
      (by decide),
   claim_C2_partial_failure_amended.2.2.2.2.2.1 ⟨fun _ => 404, fun _ => [], 3⟩ "q"
      (Or.inl rfl)⟩

/-- Counterexample to claim C2 as stated: in a two-item HTTP `files_exist`
batch where one path answers a client-class 400, the whole call raises —
no per-item result collection is returned for the other item at all, so
one item's failure does stop the batch. -/
theorem claim_C2_counterexample :
    HttpInterface.files_exist
        ⟨fun p => if p = "c" then 400 else 200, fun _ => [], 10⟩ ["c", "d"]
      = .error .httpClientError := rfl
